import Mathlib

/-!
Verification of the vault key management and envelope-encryption subsystem of
the aura-pass password manager.

The TypeScript source is shallowly embedded:

* JS strings are Lean `String`; byte arrays, UTF-16 code units and code points
  are `List Nat` with values below 256 (resp. 0x110000).
* The Web-platform collaborators used by the source (TextEncoder and
  TextDecoder, btoa and atob, JSON.parse and JSON.stringify, the AES-GCM
  primitives of Web Crypto, PBKDF2 derivation) are modelled by executable Lean
  functions with the algebraic behaviour the source relies on: UTF-8
  encoding and decoding, forgiving base64, a recursive-descent JSON reader,
  and an authenticated stream cipher whose derived key is the deterministic
  image of the PBKDF2 inputs (token, salt, iteration count).
* `async` functions that can reject are `Option`-valued; a JS exception is
  `none`.
* Randomness (the fresh 96-bit nonce drawn by every encryption call) is an
  explicit `iv` parameter.
* React state updated by effects and callbacks is explicit state passing over
  small state records, one step function per handler.
-/

set_option maxRecDepth 16384

namespace AuraPass

/-! ## Code points, code units and text codecs -/

/-- A Unicode code point as a `Char`, mapping invalid code points to the
replacement character, as the Web text decoder does. -/
def cpToChar (n : Nat) : Char :=
  if n.isValidChar then Char.ofNat n else Char.ofNat 0xFFFD

/-- Build a JS string from a list of code points. -/
def codesToStr (l : List Nat) : String :=
  String.mk (l.map cpToChar)

/-- The code points of a JS string. -/
def strToCodes (s : String) : List Nat :=
  s.data.map Char.toNat

/-- UTF-8 encoding of one code point (the body of TextEncoder). -/
def utf8EncodeChar (c : Nat) : List Nat :=
  if c < 0x80 then [c]
  else if c < 0x800 then [0xC0 + c / 64, 0x80 + c % 64]
  else if c < 0x10000 then [0xE0 + c / 4096, 0x80 + c / 64 % 64, 0x80 + c % 64]
  else [0xF0 + c / 262144, 0x80 + c / 4096 % 64, 0x80 + c / 64 % 64, 0x80 + c % 64]

/-- UTF-8 encoding of a list of code points. -/
def utf8EncodeCps : List Nat → List Nat
  | [] => []
  | c :: r => utf8EncodeChar c ++ utf8EncodeCps r

/-- `new TextEncoder().encode(s)`: the UTF-8 bytes of a string. -/
def utf8Encode (s : String) : List Nat :=
  utf8EncodeCps (strToCodes s)

/-- `new TextDecoder().decode(bytes)` on the code-point level: total UTF-8
decoding, invalid sequences becoming the replacement character 0xFFFD. -/
def utf8DecodeCps : List Nat → List Nat
  | [] => []
  | b :: rest =>
    if b < 0x80 then b :: utf8DecodeCps rest
    else if b < 0xC2 then 0xFFFD :: utf8DecodeCps rest
    else
      match rest with
      | [] => [0xFFFD]
      | b2 :: r2 =>
        if b < 0xE0 then
          if b2 / 64 = 2 then ((b - 0xC0) * 64 + (b2 - 0x80)) :: utf8DecodeCps r2
          else 0xFFFD :: utf8DecodeCps (b2 :: r2)
        else
          match r2 with
          | [] => [0xFFFD]
          | b3 :: r3 =>
            if b < 0xF0 then
              if b2 / 64 = 2 && b3 / 64 = 2 then
                ((b - 0xE0) * 4096 + (b2 - 0x80) * 64 + (b3 - 0x80)) :: utf8DecodeCps r3
              else 0xFFFD :: utf8DecodeCps (b2 :: b3 :: r3)
            else
              match r3 with
              | [] => [0xFFFD]
              | b4 :: r4 =>
                if b2 / 64 = 2 && b3 / 64 = 2 && b4 / 64 = 2 then
                  ((b - 0xF0) * 262144 + (b2 - 0x80) * 4096 + (b3 - 0x80) * 64 + (b4 - 0x80))
                    :: utf8DecodeCps r4
                else 0xFFFD :: utf8DecodeCps (b2 :: b3 :: b4 :: r4)

/-- `TextDecoder` composed with string construction. -/
def utf8Decode (bs : List Nat) : String :=
  codesToStr (utf8DecodeCps bs)

theorem utf8EncodeChar_lt_256 (c : Nat) (h : c < 0x110000) :
    ∀ b ∈ utf8EncodeChar c, b < 256 := by
  intro b hb
  unfold utf8EncodeChar at hb
  split at hb
  · simp at hb; omega
  · split at hb
    · simp at hb; rcases hb with h | h <;> omega
    · split at hb
      · simp at hb; rcases hb with h | h | h <;> omega
      · simp at hb; rcases hb with h | h | h | h <;> omega

theorem utf8EncodeCps_lt_256 (l : List Nat) (h : ∀ c ∈ l, c < 0x110000) :
    ∀ b ∈ utf8EncodeCps l, b < 256 := by
  induction l with
  | nil => simp [utf8EncodeCps]
  | cons c r ih =>
    intro b hb
    simp only [utf8EncodeCps, List.mem_append] at hb
    rcases hb with hb | hb
    · exact utf8EncodeChar_lt_256 c (h c (by simp)) b hb
    · exact ih (fun x hx => h x (by simp [hx])) b hb

theorem utf8DecodeCps_encodeChar (c : Nat) (h : c < 0x110000) (rest : List Nat) :
    utf8DecodeCps (utf8EncodeChar c ++ rest) = c :: utf8DecodeCps rest := by
  by_cases h1 : c < 0x80
  · have e : utf8EncodeChar c = [c] := by simp [utf8EncodeChar, h1]
    rw [e, List.cons_append, List.nil_append]
    conv_lhs => rw [utf8DecodeCps.eq_def]
    dsimp only
    rw [if_pos (by omega)]
  · by_cases h2 : c < 0x800
    · have e : utf8EncodeChar c = [0xC0 + c / 64, 0x80 + c % 64] := by
        simp [utf8EncodeChar, h1, h2]
      rw [e]
      simp only [List.cons_append, List.nil_append]
      conv_lhs => rw [utf8DecodeCps.eq_def]
      dsimp only
      rw [if_neg (by omega), if_neg (by omega), if_pos (by omega), if_pos (by omega)]
      congr 1
      omega
    · by_cases h3 : c < 0x10000
      · have e : utf8EncodeChar c = [0xE0 + c / 4096, 0x80 + c / 64 % 64, 0x80 + c % 64] := by
          simp [utf8EncodeChar, h1, h2, h3]
        rw [e]
        simp only [List.cons_append, List.nil_append]
        conv_lhs => rw [utf8DecodeCps.eq_def]
        dsimp only
        rw [if_neg (by omega), if_neg (by omega), if_neg (by omega), if_pos (by omega),
          if_pos (by simp only [Bool.and_eq_true, decide_eq_true_eq]; omega)]
        congr 1
        omega
      · have e : utf8EncodeChar c =
            [0xF0 + c / 262144, 0x80 + c / 4096 % 64, 0x80 + c / 64 % 64, 0x80 + c % 64] := by
          simp [utf8EncodeChar, h1, h2, h3]
        rw [e]
        simp only [List.cons_append, List.nil_append]
        conv_lhs => rw [utf8DecodeCps.eq_def]
        dsimp only
        rw [if_neg (by omega), if_neg (by omega), if_neg (by omega), if_neg (by omega),
          if_pos (by simp only [Bool.and_eq_true, decide_eq_true_eq]; omega)]
        congr 1
        omega

theorem utf8DecodeCps_nil : utf8DecodeCps [] = [] := by
  conv_lhs => rw [utf8DecodeCps.eq_def]

theorem utf8DecodeCps_encodeCps (l : List Nat) (h : ∀ c ∈ l, c < 0x110000) :
    utf8DecodeCps (utf8EncodeCps l) = l := by
  induction l with
  | nil => simp only [utf8EncodeCps, utf8DecodeCps_nil]
  | cons c r ih =>
    simp only [utf8EncodeCps]
    rw [utf8DecodeCps_encodeChar c (h c (by simp))]
    rw [ih (fun x hx => h x (by simp [hx]))]

theorem cpToChar_toNat (c : Char) : cpToChar c.toNat = c := by
  unfold cpToChar
  rw [if_pos, Char.ofNat_toNat]
  exact c.valid

theorem toNat_cpToChar (n : Nat) (h : n.isValidChar) : (cpToChar n).toNat = n := by
  unfold cpToChar
  rw [if_pos h]
  simp [Char.ofNat, h, Char.ofNatAux, Char.toNat]
  rfl

theorem strToCodes_codesToStr (l : List Nat) (h : ∀ c ∈ l, c.isValidChar) :
    strToCodes (codesToStr l) = l := by
  show ((l.map cpToChar).map Char.toNat) = l
  rw [List.map_map]
  induction l with
  | nil => rfl
  | cons c r ih =>
    simp only [List.map_cons, Function.comp_apply]
    rw [toNat_cpToChar c (h c (by simp)), ih (fun x hx => h x (by simp [hx]))]

theorem utf8Decode_encode (s : String) : utf8Decode (utf8Encode s) = s := by
  unfold utf8Decode utf8Encode codesToStr strToCodes
  rw [utf8DecodeCps_encodeCps]
  · rw [List.map_map]
    have : (cpToChar ∘ Char.toNat) = id := by
      funext c
      exact cpToChar_toNat c
    rw [this, List.map_id]
  · intro c hc
    simp only [List.mem_map] at hc
    obtain ⟨ch, _, rfl⟩ := hc
    have hv : ch.toNat.isValidChar := ch.valid
    rcases hv with hv | ⟨_, hv⟩ <;> omega

/-! ## Base64: the btoa and atob collaborators

`btoa` maps a binary string (code units below 256) to its base64 encoding;
`atob` implements forgiving base64 decoding: ASCII whitespace is removed, then
if the length is a multiple of four up to two trailing padding equals signs
are stripped, a remaining length of 1 mod 4 or any character outside the
alphabet is an error, and a final group of two or three characters yields one
or two bytes, leftover bits being discarded. -/

/-- Code of the base64 alphabet character for a 6-bit value. -/
def b64CharCode (n : Nat) : Nat :=
  if n < 26 then 65 + n
  else if n < 52 then 71 + n
  else if n < 62 then n - 4
  else if n = 62 then 43 else 47

/-- 6-bit value of a base64 alphabet character code, none outside the alphabet. -/
def b64Val (c : Nat) : Option Nat :=
  if 65 ≤ c ∧ c ≤ 90 then some (c - 65)
  else if 97 ≤ c ∧ c ≤ 122 then some (c - 71)
  else if 48 ≤ c ∧ c ≤ 57 then some (c + 4)
  else if c = 43 then some 62
  else if c = 47 then some 63
  else none

/-- ASCII whitespace removed by forgiving base64. -/
def isB64Ws (c : Nat) : Bool :=
  c = 9 || c = 10 || c = 12 || c = 13 || c = 32

/-- `btoa` on code units. -/
def btoaCodes : List Nat → List Nat
  | [] => []
  | [a] => [b64CharCode (a / 4), b64CharCode (a % 4 * 16), 61, 61]
  | [a, b] => [b64CharCode (a / 4), b64CharCode (a % 4 * 16 + b / 16), b64CharCode (b % 16 * 4), 61]
  | a :: b :: c :: rest =>
    b64CharCode (a / 4) :: b64CharCode (a % 4 * 16 + b / 16) ::
      b64CharCode (b % 16 * 4 + c / 64) :: b64CharCode (c % 64) :: btoaCodes rest

/-- Strip one or two trailing padding characters. -/
def stripPad (l : List Nat) : List Nat :=
  match l.reverse with
  | 61 :: 61 :: t => t.reverse
  | 61 :: t => t.reverse
  | _ => l

/-- Decode a cleaned base64 character stream (6-bit values) into bytes; a
final group of two or three values contributes one or two bytes. -/
def b64Decode4 : List Nat → Option (List Nat)
  | [] => some []
  | [x, y] => some [x * 4 + y / 16]
  | [x, y, z] => some [x * 4 + y / 16, y % 16 * 16 + z / 4]
  | x :: y :: z :: w :: rest =>
    (b64Decode4 rest).map (fun t => (x * 4 + y / 16) :: (y % 16 * 16 + z / 4) :: (z % 4 * 64 + w) :: t)
  | [_] => none

/-- Map each character through the alphabet, failing on a foreign character. -/
def mapB64Vals : List Nat → Option (List Nat)
  | [] => some []
  | c :: r =>
    match b64Val c, mapB64Vals r with
    | some v, some vs => some (v :: vs)
    | _, _ => none

/-- `atob` on code units (forgiving base64). -/
def atobCodes (codes : List Nat) : Option (List Nat) :=
  let cs := codes.filter (fun c => !isB64Ws c)
  let cs2 := if cs.length % 4 = 0 then stripPad cs else cs
  if cs2.length % 4 = 1 then none
  else
    match mapB64Vals cs2 with
    | some vs => b64Decode4 vs
    | none => none

/-- The base64 encoding without its padding tail. -/
def b64Core : List Nat → List Nat
  | [] => []
  | [a] => [b64CharCode (a / 4), b64CharCode (a % 4 * 16)]
  | [a, b] => [b64CharCode (a / 4), b64CharCode (a % 4 * 16 + b / 16), b64CharCode (b % 16 * 4)]
  | a :: b :: c :: rest =>
    b64CharCode (a / 4) :: b64CharCode (a % 4 * 16 + b / 16) ::
      b64CharCode (b % 16 * 4 + c / 64) :: b64CharCode (c % 64) :: b64Core rest

/-- The padding tail of the base64 encoding. -/
def b64PadTail (l : List Nat) : List Nat :=
  if l.length % 3 = 0 then [] else if l.length % 3 = 1 then [61, 61] else [61]

/-- The 6-bit values of the base64 encoding. -/
def sixbits : List Nat → List Nat
  | [] => []
  | [a] => [a / 4, a % 4 * 16]
  | [a, b] => [a / 4, a % 4 * 16 + b / 16, b % 16 * 4]
  | a :: b :: c :: rest =>
    (a / 4) :: (a % 4 * 16 + b / 16) :: (b % 16 * 4 + c / 64) :: (c % 64) :: sixbits rest

theorem b64CharCode_props : ∀ n < 64,
    32 ≤ b64CharCode n ∧ b64CharCode n < 128 ∧ b64CharCode n ≠ 61 ∧
      b64CharCode n ≠ 34 ∧ b64CharCode n ≠ 92 ∧ isB64Ws (b64CharCode n) = false ∧
      b64Val (b64CharCode n) = some n := by
  decide

theorem btoaCodes_eq_core_pad (l : List Nat) :
    btoaCodes l = b64Core l ++ b64PadTail l := by
  induction l using btoaCodes.induct with
  | case1 => simp [btoaCodes, b64Core, b64PadTail]
  | case2 a => simp [btoaCodes, b64Core, b64PadTail]
  | case3 a b => simp [btoaCodes, b64Core, b64PadTail]
  | case4 a b c rest ih =>
    simp only [btoaCodes, b64Core, ih, b64PadTail, List.length_cons]
    have h3 : (rest.length + 1 + 1 + 1) % 3 = rest.length % 3 := by omega
    simp only [h3, List.cons_append]

theorem b64Core_mem (l : List Nat) (h : ∀ b ∈ l, b < 256) :
    ∀ c ∈ b64Core l, 32 ≤ c ∧ c < 128 ∧ c ≠ 61 ∧ c ≠ 34 ∧ c ≠ 92 ∧ isB64Ws c = false := by
  induction l using b64Core.induct with
  | case1 => simp [b64Core]
  | case2 a =>
    intro c hc
    have ha : a < 256 := h a (by simp)
    simp only [b64Core, List.mem_cons, List.not_mem_nil, or_false] at hc
    rcases hc with rfl | rfl
    · exact ⟨(b64CharCode_props _ (by omega)).1, (b64CharCode_props _ (by omega)).2.1,
        (b64CharCode_props _ (by omega)).2.2.1, (b64CharCode_props _ (by omega)).2.2.2.1,
        (b64CharCode_props _ (by omega)).2.2.2.2.1, (b64CharCode_props _ (by omega)).2.2.2.2.2.1⟩
    · exact ⟨(b64CharCode_props _ (by omega)).1, (b64CharCode_props _ (by omega)).2.1,
        (b64CharCode_props _ (by omega)).2.2.1, (b64CharCode_props _ (by omega)).2.2.2.1,
        (b64CharCode_props _ (by omega)).2.2.2.2.1, (b64CharCode_props _ (by omega)).2.2.2.2.2.1⟩
  | case3 a b =>
    intro c hc
    have ha : a < 256 := h a (by simp)
    have hb : b < 256 := h b (by simp)
    simp only [b64Core, List.mem_cons, List.not_mem_nil, or_false] at hc
    have key : ∀ n < 64, 32 ≤ b64CharCode n ∧ b64CharCode n < 128 ∧ b64CharCode n ≠ 61 ∧
        b64CharCode n ≠ 34 ∧ b64CharCode n ≠ 92 ∧ isB64Ws (b64CharCode n) = false :=
      fun n hn => ⟨(b64CharCode_props n hn).1, (b64CharCode_props n hn).2.1,
        (b64CharCode_props n hn).2.2.1, (b64CharCode_props n hn).2.2.2.1,
        (b64CharCode_props n hn).2.2.2.2.1, (b64CharCode_props n hn).2.2.2.2.2.1⟩
    rcases hc with rfl | rfl | rfl
    · exact key _ (by omega)
    · exact key _ (by omega)
    · exact key _ (by omega)
  | case4 a b c rest ih =>
    intro x hx
    have ha : a < 256 := h a (by simp)
    have hb : b < 256 := h b (by simp)
    have hcc : c < 256 := h c (by simp)
    have key : ∀ n < 64, 32 ≤ b64CharCode n ∧ b64CharCode n < 128 ∧ b64CharCode n ≠ 61 ∧
        b64CharCode n ≠ 34 ∧ b64CharCode n ≠ 92 ∧ isB64Ws (b64CharCode n) = false :=
      fun n hn => ⟨(b64CharCode_props n hn).1, (b64CharCode_props n hn).2.1,
        (b64CharCode_props n hn).2.2.1, (b64CharCode_props n hn).2.2.2.1,
        (b64CharCode_props n hn).2.2.2.2.1, (b64CharCode_props n hn).2.2.2.2.2.1⟩
    simp only [b64Core, List.mem_cons] at hx
    rcases hx with rfl | rfl | rfl | rfl | hx
    · exact key _ (by omega)
    · exact key _ (by omega)
    · exact key _ (by omega)
    · exact key _ (by omega)
    · exact ih (fun y hy => h y (by simp [hy])) x hx

theorem stripPad_two (X : List Nat) : stripPad (X ++ [61, 61]) = X := by
  unfold stripPad
  have hrev : (X ++ [61, 61]).reverse = 61 :: 61 :: X.reverse := by simp
  rw [hrev]
  simp

theorem stripPad_one (X : List Nat) (h : 61 ∉ X) : stripPad (X ++ [61]) = X := by
  unfold stripPad
  have hrev : (X ++ [61]).reverse = 61 :: X.reverse := by simp
  rw [hrev]
  rcases hX : X.reverse with _ | ⟨e, t⟩
  · simp at hX; simp [hX]
  · have he : e ≠ 61 := by
      intro he
      apply h
      rw [← List.mem_reverse, hX, he]
      simp
    split
    · next t2 heq =>
      injection heq with h1 h2
      injection h2 with h3 h4
      exact absurd h3 he
    · next x t3 hne heq =>
      injection heq with h1 h2
      rw [← h2, ← hX, List.reverse_reverse]
    · next x hne1 hne2 =>
      exact absurd rfl (hne2 (e :: t))

theorem stripPad_none (X : List Nat) (h : 61 ∉ X) : stripPad X = X := by
  unfold stripPad
  split
  · next t heq =>
    exact absurd (by rw [← List.mem_reverse, heq]; simp) h
  · next x t hne heq =>
    exact absurd (by rw [← List.mem_reverse, heq]; simp) h
  · rfl

theorem b64Core_not_61 (l : List Nat) (h : ∀ b ∈ l, b < 256) : 61 ∉ b64Core l := by
  intro hc
  exact absurd rfl (b64Core_mem l h 61 hc).2.2.1

theorem stripPad_btoaCodes (l : List Nat) (h : ∀ b ∈ l, b < 256) :
    stripPad (btoaCodes l) = b64Core l := by
  rw [btoaCodes_eq_core_pad]
  unfold b64PadTail
  by_cases h0 : l.length % 3 = 0
  · rw [if_pos h0, List.append_nil]
    exact stripPad_none _ (b64Core_not_61 l h)
  · by_cases h1 : l.length % 3 = 1
    · rw [if_neg h0, if_pos h1]
      exact stripPad_two _
    · rw [if_neg h0, if_neg h1]
      exact stripPad_one _ (b64Core_not_61 l h)

theorem btoaCodes_length_mod4 (l : List Nat) : (btoaCodes l).length % 4 = 0 := by
  induction l using btoaCodes.induct with
  | case1 => simp [btoaCodes]
  | case2 a => simp [btoaCodes]
  | case3 a b => simp [btoaCodes]
  | case4 a b c rest ih =>
    simp only [btoaCodes, List.length_cons]
    omega

theorem b64Core_length_mod4 (l : List Nat) :
    (b64Core l).length % 4 = 0 ∨ (b64Core l).length % 4 = 2 ∨ (b64Core l).length % 4 = 3 := by
  induction l using b64Core.induct with
  | case1 => simp [b64Core]
  | case2 a => simp [b64Core]
  | case3 a b => simp [b64Core]
  | case4 a b c rest ih =>
    simp only [b64Core, List.length_cons]
    omega

theorem mapB64Vals_core (l : List Nat) (h : ∀ b ∈ l, b < 256) :
    mapB64Vals (b64Core l) = some (sixbits l) := by
  induction l using b64Core.induct with
  | case1 => simp [b64Core, mapB64Vals, sixbits]
  | case2 a =>
    have ha : a < 256 := h a (by simp)
    simp [b64Core, mapB64Vals, sixbits,
      (b64CharCode_props (a / 4) (by omega)).2.2.2.2.2.2,
      (b64CharCode_props (a % 4 * 16) (by omega)).2.2.2.2.2.2]
  | case3 a b =>
    have ha : a < 256 := h a (by simp)
    have hb : b < 256 := h b (by simp)
    simp [b64Core, mapB64Vals, sixbits,
      (b64CharCode_props (a / 4) (by omega)).2.2.2.2.2.2,
      (b64CharCode_props (a % 4 * 16 + b / 16) (by omega)).2.2.2.2.2.2,
      (b64CharCode_props (b % 16 * 4) (by omega)).2.2.2.2.2.2]
  | case4 a b c rest ih =>
    have ha : a < 256 := h a (by simp)
    have hb : b < 256 := h b (by simp)
    have hcc : c < 256 := h c (by simp)
    have ih2 := ih (fun y hy => h y (by simp [hy]))
    simp [b64Core, mapB64Vals, sixbits, ih2,
      (b64CharCode_props (a / 4) (by omega)).2.2.2.2.2.2,
      (b64CharCode_props (a % 4 * 16 + b / 16) (by omega)).2.2.2.2.2.2,
      (b64CharCode_props (b % 16 * 4 + c / 64) (by omega)).2.2.2.2.2.2,
      (b64CharCode_props (c % 64) (by omega)).2.2.2.2.2.2]

theorem b64Decode4_sixbits (l : List Nat) (h : ∀ b ∈ l, b < 256) :
    b64Decode4 (sixbits l) = some l := by
  induction l using sixbits.induct with
  | case1 => simp [sixbits, b64Decode4]
  | case2 a =>
    have ha : a < 256 := h a (by simp)
    simp only [sixbits, b64Decode4, Option.some.injEq, List.cons.injEq, and_true]
    omega
  | case3 a b =>
    have ha : a < 256 := h a (by simp)
    have hb : b < 256 := h b (by simp)
    simp only [sixbits, b64Decode4, Option.some.injEq, List.cons.injEq, and_true]
    omega
  | case4 a b c rest ih =>
    have ha : a < 256 := h a (by simp)
    have hb : b < 256 := h b (by simp)
    have hcc : c < 256 := h c (by simp)
    have ih2 := ih (fun y hy => h y (by simp [hy]))
    simp [sixbits, b64Decode4, ih2]
    omega

theorem atobCodes_btoaCodes (l : List Nat) (h : ∀ b ∈ l, b < 256) :
    atobCodes (btoaCodes l) = some l := by
  unfold atobCodes
  have hfilter : (btoaCodes l).filter (fun c => !isB64Ws c) = btoaCodes l := by
    rw [List.filter_eq_self]
    intro a ha
    rw [btoaCodes_eq_core_pad] at ha
    rcases List.mem_append.mp ha with ha | ha
    · simp [(b64Core_mem l h a ha).2.2.2.2.2]
    · unfold b64PadTail at ha
      split at ha
      · exact absurd ha (List.not_mem_nil a)
      · split at ha
        · rcases List.mem_cons.mp ha with rfl | ha2
          · decide
          · rcases List.mem_cons.mp ha2 with rfl | ha3
            · decide
            · exact absurd ha3 (List.not_mem_nil a)
        · rcases List.mem_cons.mp ha with rfl | ha2
          · decide
          · exact absurd ha2 (List.not_mem_nil a)
  dsimp only
  rw [hfilter, if_pos (btoaCodes_length_mod4 l), stripPad_btoaCodes l h,
    if_neg (by rcases b64Core_length_mod4 l with h4 | h4 | h4 <;> omega),
    mapB64Vals_core l h]
  exact b64Decode4_sixbits l h

/-! ## JSON: the JSON.parse and JSON.stringify collaborators

`JSON.parse` is modelled by a recursive-descent reader over code units, with
a fuel argument bounding the recursion depth; the fuel chosen by `jsonParse`
is always sufficient because every unit of fuel spent accompanies at least
half a consumed input character. Numeric values are kept as their lexemes:
no caller of the envelope codec inspects a JSON number. Object fields keep
duplicates in order; property lookup takes the last occurrence, as JS does. -/

/-- A JSON value. Strings are lists of code units. -/
inductive Json where
  | null
  | bool (b : Bool)
  | num (lexeme : List Nat)
  | str (s : List Nat)
  | arr (xs : List Json)
  | obj (fields : List (List Nat × Json))

/-- JSON whitespace. -/
def isJsonWs (c : Nat) : Bool :=
  c = 32 || c = 9 || c = 10 || c = 13

/-- Skip insignificant whitespace. -/
def skipWs (l : List Nat) : List Nat :=
  l.dropWhile isJsonWs

/-- Value of one hexadecimal digit. -/
def hexDigitVal (c : Nat) : Option Nat :=
  if 48 ≤ c ∧ c ≤ 57 then some (c - 48)
  else if 65 ≤ c ∧ c ≤ 70 then some (c - 55)
  else if 97 ≤ c ∧ c ≤ 102 then some (c - 87)
  else none

/-- Code unit produced by a one-character escape. -/
def escCharCode (e : Nat) : Option Nat :=
  if e = 34 then some 34
  else if e = 92 then some 92
  else if e = 47 then some 47
  else if e = 98 then some 8
  else if e = 102 then some 12
  else if e = 110 then some 10
  else if e = 114 then some 13
  else if e = 116 then some 9
  else none

/-- Read the body of a JSON string after its opening quote, returning the
decoded code units and the input after the closing quote. -/
def parseStrBody : List Nat → Option (List Nat × List Nat)
  | [] => none
  | c :: r =>
    if c = 34 then some ([], r)
    else if c = 92 then
      match r with
      | [] => none
      | e :: r2 =>
        if e = 117 then
          match r2 with
          | h1 :: h2 :: h3 :: h4 :: r3 =>
            match hexDigitVal h1, hexDigitVal h2, hexDigitVal h3, hexDigitVal h4 with
            | some x1, some x2, some x3, some x4 =>
              (parseStrBody r3).map
                (fun p => ((((x1 * 16 + x2) * 16 + x3) * 16 + x4) :: p.1, p.2))
            | _, _, _, _ => none
          | _ => none
        else
          match escCharCode e with
          | some ec => (parseStrBody r2).map (fun p => (ec :: p.1, p.2))
          | none => none
    else if c < 32 then none
    else (parseStrBody r).map (fun p => (c :: p.1, p.2))

/-- Digit predicate for number lexemes. -/
def isDigitCode (c : Nat) : Bool :=
  48 ≤ c && c ≤ 57

/-- Exponent part of a JSON number, after the e or E. -/
def parseExpPart (lex : List Nat) (l : List Nat) : Option (Json × List Nat) :=
  let sl := match l with
    | 43 :: r => (([43] : List Nat), r)
    | 45 :: r => (([45] : List Nat), r)
    | _ => (([] : List Nat), l)
  match sl.2.takeWhile isDigitCode, sl.2.dropWhile isDigitCode with
  | [], _ => none
  | d :: ds, r2 => some (Json.num (lex ++ [101] ++ sl.1 ++ d :: ds), r2)

/-- Optional fraction and exponent of a JSON number. -/
def parseFracExp (lex : List Nat) (l : List Nat) : Option (Json × List Nat) :=
  match l with
  | 46 :: r =>
    (match r.takeWhile isDigitCode, r.dropWhile isDigitCode with
     | [], _ => none
     | d :: ds, r2 =>
       match r2 with
       | 101 :: r3 => parseExpPart (lex ++ 46 :: d :: ds) r3
       | 69 :: r3 => parseExpPart (lex ++ 46 :: d :: ds) r3
       | _ => some (Json.num (lex ++ 46 :: d :: ds), r2))
  | 101 :: r => parseExpPart lex r
  | 69 :: r => parseExpPart lex r
  | _ => some (Json.num lex, l)

/-- A JSON number at the head of the input. -/
def parseNumber (l : List Nat) : Option (Json × List Nat) :=
  let nl := match l with
    | 45 :: r => (([45] : List Nat), r)
    | _ => (([] : List Nat), l)
  match nl.2 with
  | 48 :: r => parseFracExp (nl.1 ++ [48]) r
  | c :: r =>
    if 49 ≤ c ∧ c ≤ 57 then
      parseFracExp (nl.1 ++ c :: r.takeWhile isDigitCode) (r.dropWhile isDigitCode)
    else none
  | [] => none

/-- Match a literal keyword tail (ull, rue, alse). -/
def expectLit (pat : List Nat) (v : Json) (l : List Nat) : Option (Json × List Nat) :=
  match pat, l with
  | [], _ => some (v, l)
  | p :: ps, c :: r => if c = p then expectLit ps v r else none
  | _ :: _, [] => none

mutual

/-- One JSON value at the head of the input. -/
def parseVal : Nat → List Nat → Option (Json × List Nat)
  | 0, _ => none
  | f + 1, l =>
    match skipWs l with
    | [] => none
    | c :: r =>
      if c = 110 then expectLit [117, 108, 108] Json.null r
      else if c = 116 then expectLit [114, 117, 101] (Json.bool true) r
      else if c = 102 then expectLit [97, 108, 115, 101] (Json.bool false) r
      else if c = 34 then
        match parseStrBody r with
        | some (s, r2) => some (Json.str s, r2)
        | none => none
      else if c = 91 then
        match skipWs r with
        | 93 :: r2 => some (Json.arr [], r2)
        | l2 =>
          match parseArrItems f l2 with
          | some (vs, r2) => some (Json.arr vs, r2)
          | none => none
      else if c = 123 then
        match skipWs r with
        | 125 :: r2 => some (Json.obj [], r2)
        | l2 =>
          match parseObjItems f l2 with
          | some (fs, r2) => some (Json.obj fs, r2)
          | none => none
      else parseNumber (c :: r)

/-- The comma-separated items of a non-empty array, up to the closing bracket. -/
def parseArrItems : Nat → List Nat → Option (List Json × List Nat)
  | 0, _ => none
  | f + 1, l =>
    match parseVal f l with
    | some (v, r) =>
      match skipWs r with
      | 44 :: r2 =>
        (match parseArrItems f (skipWs r2) with
         | some (vs, r3) => some (v :: vs, r3)
         | none => none)
      | 93 :: r2 => some ([v], r2)
      | _ => none
    | none => none

/-- The comma-separated members of a non-empty object, up to the closing brace. -/
def parseObjItems : Nat → List Nat → Option (List (List Nat × Json) × List Nat)
  | 0, _ => none
  | f + 1, l =>
    match l with
    | 34 :: r =>
      (match parseStrBody r with
       | some (k, r1) =>
         (match skipWs r1 with
          | 58 :: r2 =>
            (match parseVal f r2 with
             | some (v, r3) =>
               (match skipWs r3 with
                | 44 :: r4 =>
                  (match parseObjItems f (skipWs r4) with
                   | some (fs, r5) => some ((k, v) :: fs, r5)
                   | none => none)
                | 125 :: r4 => some ([(k, v)], r4)
                | _ => none)
             | none => none)
          | _ => none)
       | none => none)
    | _ => none

end

/-- `JSON.parse` on code units: parse one value, then only whitespace may
remain. -/
def jsonParse (codes : List Nat) : Option Json :=
  match parseVal (2 * codes.length + 4) codes with
  | some (v, r) => if skipWs r = [] then some v else none
  | none => none

/-- Property lookup on a parsed object: the last duplicate wins, as in JS. -/
def lookupLast (fs : List (List Nat × Json)) (k : List Nat) : Option Json :=
  fs.foldl (fun acc p => if p.1 = k then some p.2 else acc) none

/-- The code units of the property name iv. -/
def ivKey : List Nat := [105, 118]

/-- The code units of the property name ct. -/
def ctKey : List Nat := [99, 116]

/-- `parsed.k` when the caller requires a string: some only when the parsed
value is an object carrying a string under this name. -/
def jsGetStr (j : Json) (k : List Nat) : Option (List Nat) :=
  match j with
  | Json.obj fs =>
    match lookupLast fs k with
    | some (Json.str s) => some s
    | _ => none
  | _ => none

/-- `JSON.stringify({ iv: a, ct: b })` for strings needing no escapes, on code
units; 123 and 125 are the braces, 34 the quote, 58 the colon, 44 the comma. -/
def packJson (a b : List Nat) : List Nat :=
  123 :: 34 :: 105 :: 118 :: 34 :: 58 :: 34 ::
    (a ++ (34 :: 44 :: 34 :: 99 :: 116 :: 34 :: 58 :: 34 :: (b ++ [34, 125])))

theorem parseStrBody_safe (s : List Nat) (rest : List Nat)
    (h : ∀ c ∈ s, 32 ≤ c ∧ c ≠ 34 ∧ c ≠ 92) :
    parseStrBody (s ++ 34 :: rest) = some (s, rest) := by
  induction s with
  | nil =>
    rw [List.nil_append]
    conv_lhs => rw [parseStrBody.eq_def]
    simp
  | cons c s ih =>
    have hc := h c (by simp)
    rw [List.cons_append]
    conv_lhs => rw [parseStrBody.eq_def]
    dsimp only
    rw [if_neg hc.2.1, if_neg hc.2.2, if_neg (by omega),
      ih (fun x hx => h x (by simp [hx]))]
    rfl

theorem parseStrBody_ivkey (R : List Nat) :
    parseStrBody (105 :: 118 :: 34 :: R) = some ([105, 118], R) :=
  parseStrBody_safe [105, 118] R (by decide)

theorem parseStrBody_ctkey (R : List Nat) :
    parseStrBody (99 :: 116 :: 34 :: R) = some ([99, 116], R) :=
  parseStrBody_safe [99, 116] R (by decide)

theorem parseVal_packJson (f : Nat) (a b rest : List Nat)
    (ha : ∀ c ∈ a, 32 ≤ c ∧ c ≠ 34 ∧ c ≠ 92)
    (hb : ∀ c ∈ b, 32 ≤ c ∧ c ≠ 34 ∧ c ≠ 92) :
    parseVal (f + 4) (packJson a b ++ rest) =
      some (Json.obj [(ivKey, Json.str a), (ctKey, Json.str b)], rest) := by
  have h1 : parseStrBody
      (a ++ 34 :: 44 :: 34 :: 99 :: 116 :: 34 :: 58 :: 34 :: (b ++ 34 :: 125 :: rest)) =
      some (a, 44 :: 34 :: 99 :: 116 :: 34 :: 58 :: 34 :: (b ++ 34 :: 125 :: rest)) :=
    parseStrBody_safe _ _ ha
  have h2 : parseStrBody (b ++ 34 :: 125 :: rest) = some (b, 125 :: rest) :=
    parseStrBody_safe _ _ hb
  have hpack : packJson a b ++ rest =
      123 :: 34 :: 105 :: 118 :: 34 :: 58 :: 34 ::
        (a ++ 34 :: 44 :: 34 :: 99 :: 116 :: 34 :: 58 :: 34 :: (b ++ 34 :: 125 :: rest)) := by
    simp [packJson]
  rw [hpack]
  rw [show f + 4 = (f + 3) + 1 from rfl]
  simp [parseVal, parseObjItems, parseStrBody_ivkey, parseStrBody_ctkey, skipWs, isJsonWs,
    h1, h2, ivKey, ctKey]

theorem jsonParse_packJson (a b : List Nat)
    (ha : ∀ c ∈ a, 32 ≤ c ∧ c ≠ 34 ∧ c ≠ 92)
    (hb : ∀ c ∈ b, 32 ≤ c ∧ c ≠ 34 ∧ c ≠ 92) :
    jsonParse (packJson a b) =
      some (Json.obj [(ivKey, Json.str a), (ctKey, Json.str b)]) := by
  have hv := parseVal_packJson (2 * (packJson a b).length) a b [] ha hb
  rw [List.append_nil] at hv
  unfold jsonParse
  rw [hv]
  rfl

/-! ## Key derivation and the authenticated cipher (useVaultKey.ts)

`deriveAesKey` wraps `crypto.subtle.deriveKey` with PBKDF2-SHA-256. PBKDF2 is
deterministic in (token, salt, iterations), and the derived CryptoKey is
non-extractable: the only thing the program can do with it is encrypt and
decrypt. The key handle is therefore modelled as the tuple of derivation
inputs, and the AES-GCM primitives as an executable authenticated stream
cipher keyed by that tuple: encryption masks the message bytes with a
keystream derived from (key, iv) and appends a 16-byte tag over
(key, iv, body); decryption rejects any ciphertext shorter than the tag or
whose recomputed tag differs, as AES-GCM rejects a forged or wrong-key
ciphertext. -/

/-- `const PBKDF2_ITERATIONS = 200_000` in useVaultKey.ts. -/
def PBKDF2_ITERATIONS : Nat := 200000

/-- The fixed per-app salt string of useVaultKey.ts, public domain
separation, prepended to every salt label. -/
def APP_SALT_PREFIX : String := "securevault-v1-"

/-- A derived AES-GCM CryptoKey, identified by its derivation inputs. -/
structure VaultKey where
  token : String
  salt : String
  iterations : Nat
  keyLength : Nat
deriving DecidableEq

/-- `deriveAesKey(token, saltStr)`: PBKDF2-SHA-256 with the app salt prefix,
200000 iterations, yielding a 256-bit AES-GCM key. -/
def deriveAesKey (token : String) (saltStr : String) : VaultKey :=
  { token := token, salt := APP_SALT_PREFIX ++ saltStr,
    iterations := PBKDF2_ITERATIONS, keyLength := 256 }

/-- The derivation performed by `setCloudKey(userId)`. -/
def setCloudKey (userId : String) : VaultKey :=
  deriveAesKey userId ("cloud-" ++ userId)

/-- The derivation performed by `setLocalKey(masterPassword, userId)`. -/
def setLocalKey (masterPassword : String) (userId : String) : VaultKey :=
  deriveAesKey masterPassword ("local-" ++ userId)

/-- Byte fingerprint of a list, used by the cipher model. -/
def mixBytes (l : List Nat) : Nat :=
  l.foldl (fun a b => (a * 31 + b + 1) % 256) 7

/-- The bytes identifying a key inside the cipher model. -/
def keyMaterial (k : VaultKey) : List Nat :=
  utf8Encode k.token ++ 0 :: utf8Encode k.salt ++ [k.iterations % 256, k.keyLength % 256]

/-- Keystream byte i for (key, iv). -/
def ksByte (k : VaultKey) (iv : List Nat) (i : Nat) : Nat :=
  (mixBytes (keyMaterial k) * 131 + mixBytes iv * 59 + i * 83 + 29) % 256

/-- Mask (or unmask) a byte stream with the keystream starting at index i. -/
def maskBytes (k : VaultKey) (iv : List Nat) : Nat → List Nat → List Nat
  | _, [] => []
  | i, b :: r => (b ^^^ ksByte k iv i) :: maskBytes k iv (i + 1) r

/-- The 16-byte authentication tag over (key, iv, body). -/
def gcmTag (k : VaultKey) (iv body : List Nat) : List Nat :=
  List.replicate 16
    ((mixBytes (keyMaterial k) * 101 + mixBytes iv * 31 + mixBytes body * 17 + 3) % 256)

/-- `crypto.subtle.encrypt` under AES-GCM with the given iv and key:
ciphertext with the authentication tag appended. -/
def gcmEncrypt (k : VaultKey) (iv msg : List Nat) : List Nat :=
  maskBytes k iv 0 msg ++ gcmTag k iv (maskBytes k iv 0 msg)

/-- `crypto.subtle.decrypt` under AES-GCM with the given iv and key: none
models the OperationError thrown on a wrong key or corrupted ciphertext. -/
def gcmDecrypt (k : VaultKey) (iv ct : List Nat) : Option (List Nat) :=
  if ct.length < 16 then none
  else if ct.drop (ct.length - 16) = gcmTag k iv (ct.take (ct.length - 16)) then
    some (maskBytes k iv 0 (ct.take (ct.length - 16)))
  else none

theorem maskBytes_involutive (k : VaultKey) (iv : List Nat) (i : Nat) (l : List Nat) :
    maskBytes k iv i (maskBytes k iv i l) = l := by
  induction l generalizing i with
  | nil => rfl
  | cons b r ih =>
    simp only [maskBytes]
    rw [Nat.xor_assoc, Nat.xor_self, Nat.xor_zero, ih]

theorem maskBytes_length (k : VaultKey) (iv : List Nat) (i : Nat) (l : List Nat) :
    (maskBytes k iv i l).length = l.length := by
  induction l generalizing i with
  | nil => rfl
  | cons b r ih => simp [maskBytes, ih]

theorem ksByte_lt_256 (k : VaultKey) (iv : List Nat) (i : Nat) : ksByte k iv i < 256 :=
  Nat.mod_lt _ (by omega)

theorem maskBytes_lt_256 (k : VaultKey) (iv : List Nat) (i : Nat) (l : List Nat)
    (h : ∀ b ∈ l, b < 256) : ∀ b ∈ maskBytes k iv i l, b < 256 := by
  induction l generalizing i with
  | nil => simp [maskBytes]
  | cons b r ih =>
    intro x hx
    simp only [maskBytes, List.mem_cons] at hx
    rcases hx with rfl | hx
    · have h1 : b < 256 := h b (by simp)
      have h2 : ksByte k iv i < 256 := ksByte_lt_256 k iv i
      have := Nat.xor_lt_two_pow (n := 8) (by simpa using h1) (by simpa using h2)
      simpa using this
    · exact ih (i + 1) (fun y hy => h y (by simp [hy])) x hx

theorem gcmEncrypt_lt_256 (k : VaultKey) (iv msg : List Nat) (h : ∀ b ∈ msg, b < 256) :
    ∀ b ∈ gcmEncrypt k iv msg, b < 256 := by
  intro b hb
  unfold gcmEncrypt at hb
  rcases List.mem_append.mp hb with hb | hb
  · exact maskBytes_lt_256 k iv 0 msg h b hb
  · unfold gcmTag at hb
    rw [List.mem_replicate] at hb
    rw [hb.2]
    exact Nat.mod_lt _ (by omega)

theorem gcmDecrypt_encrypt (k : VaultKey) (iv msg : List Nat) :
    gcmDecrypt k iv (gcmEncrypt k iv msg) = some msg := by
  unfold gcmDecrypt gcmEncrypt
  have hlen : (maskBytes k iv 0 msg ++ gcmTag k iv (maskBytes k iv 0 msg)).length =
      (maskBytes k iv 0 msg).length + 16 := by
    simp [gcmTag]
  rw [hlen]
  have hsub : (maskBytes k iv 0 msg).length + 16 - 16 = (maskBytes k iv 0 msg).length := by
    omega
  rw [if_neg (by omega), hsub]
  have htake : (maskBytes k iv 0 msg ++ gcmTag k iv (maskBytes k iv 0 msg)).take
      (maskBytes k iv 0 msg).length = maskBytes k iv 0 msg := by
    exact List.take_left (maskBytes k iv 0 msg) (gcmTag k iv (maskBytes k iv 0 msg))
  have hdrop : (maskBytes k iv 0 msg ++ gcmTag k iv (maskBytes k iv 0 msg)).drop
      (maskBytes k iv 0 msg).length = gcmTag k iv (maskBytes k iv 0 msg) := by
    exact List.drop_left (maskBytes k iv 0 msg) (gcmTag k iv (maskBytes k iv 0 msg))
  rw [htake, hdrop, if_pos rfl, maskBytes_involutive]

/-! ## The envelope codec (useVaultKey.ts) -/

/-- `encryptWithKey(plaintext, key)` with the random 96-bit nonce passed
explicitly: encode the plaintext as UTF-8, encrypt with AES-GCM, base64 the
iv and ciphertext, pack them as the JSON object, and base64 the packed JSON.
`ab2b64` of the source is `btoaCodes`. -/
def encryptWithKey (plaintext : String) (key : VaultKey) (iv : List Nat) : String :=
  codesToStr (btoaCodes (packJson (btoaCodes iv)
    (btoaCodes (gcmEncrypt key iv (utf8Encode plaintext)))))

/-- `decryptWithKey(bundle, key)`: unpack the base64 JSON envelope, base64
decode the iv and ct fields, decrypt and UTF-8 decode; none models a thrown
exception anywhere along the way (bad base64, bad JSON, missing fields, or a
failed authenticated decryption). -/
def decryptWithKey (bundle : String) (key : VaultKey) : Option String :=
  match atobCodes (strToCodes bundle) with
  | none => none
  | some packed =>
    match jsonParse packed with
    | none => none
    | some j =>
      match jsGetStr j ivKey, jsGetStr j ctKey with
      | some ivS, some ctS =>
        (match atobCodes ivS, atobCodes ctS with
         | some ivB, some ctB =>
           (match gcmDecrypt key ivB ctB with
            | some msg => some (utf8Decode msg)
            | none => none)
         | _, _ => none)
      | _, _ => none

/-- `isEncryptedBundle(value)`: try to unpack base64 JSON and check that both
iv and ct are present as strings; false, never a throw, on any failure. -/
def isEncryptedBundle (value : String) : Bool :=
  match atobCodes (strToCodes value) with
  | none => false
  | some bs =>
    match jsonParse bs with
    | none => false
    | some j => (jsGetStr j ivKey).isSome && (jsGetStr j ctKey).isSome

/-! ## Round-trip support lemmas -/

theorem strToCodes_valid (s : String) : ∀ c ∈ strToCodes s, c.isValidChar := by
  intro c hc
  simp only [strToCodes, List.mem_map] at hc
  obtain ⟨ch, _, rfl⟩ := hc
  exact ch.valid

theorem strToCodes_lt (s : String) : ∀ c ∈ strToCodes s, c < 0x110000 := by
  intro c hc
  rcases strToCodes_valid s c hc with h | ⟨_, h⟩ <;> omega

theorem codesToStr_strToCodes (s : String) : codesToStr (strToCodes s) = s := by
  unfold codesToStr strToCodes
  rw [List.map_map]
  have : (cpToChar ∘ Char.toNat) = id := funext fun c => cpToChar_toNat c
  rw [this, List.map_id]

theorem utf8Encode_lt_256 (s : String) : ∀ b ∈ utf8Encode s, b < 256 :=
  utf8EncodeCps_lt_256 _ (strToCodes_lt s)

theorem utf8Decode_utf8Encode (s : String) : utf8Decode (utf8Encode s) = s := by
  unfold utf8Decode utf8Encode
  rw [utf8DecodeCps_encodeCps _ (strToCodes_lt s)]
  exact codesToStr_strToCodes s

theorem btoaCodes_mem (l : List Nat) (h : ∀ b ∈ l, b < 256) :
    ∀ c ∈ btoaCodes l, 32 ≤ c ∧ c < 128 ∧ c ≠ 34 ∧ c ≠ 92 := by
  intro c hc
  rw [btoaCodes_eq_core_pad] at hc
  rcases List.mem_append.mp hc with hc | hc
  · have := b64Core_mem l h c hc
    exact ⟨this.1, this.2.1, this.2.2.2.1, this.2.2.2.2.1⟩
  · unfold b64PadTail at hc
    split at hc
    · exact absurd hc (List.not_mem_nil c)
    · split at hc
      · rcases List.mem_cons.mp hc with rfl | hc2
        · exact ⟨by omega, by omega, by omega, by omega⟩
        · rcases List.mem_cons.mp hc2 with rfl | hc3
          · exact ⟨by omega, by omega, by omega, by omega⟩
          · exact absurd hc3 (List.not_mem_nil c)
      · rcases List.mem_cons.mp hc with rfl | hc2
        · exact ⟨by omega, by omega, by omega, by omega⟩
        · exact absurd hc2 (List.not_mem_nil c)

theorem packJson_mem (a b : List Nat) (ha : ∀ c ∈ a, c < 128) (hb : ∀ c ∈ b, c < 128) :
    ∀ c ∈ packJson a b, c < 128 := by
  intro c hc
  simp only [packJson, List.mem_cons, List.mem_append, List.not_mem_nil, or_false] at hc
  rcases hc with rfl | rfl | rfl | rfl | rfl | rfl | rfl | hc | rfl | rfl | rfl | rfl | rfl
    | rfl | rfl | rfl | hc | rfl | rfl
  all_goals first
  | omega
  | exact ha c hc
  | exact hb c hc

theorem jsGetStr_pack (a b : List Nat) :
    jsGetStr (Json.obj [(ivKey, Json.str a), (ctKey, Json.str b)]) ivKey = some a ∧
    jsGetStr (Json.obj [(ivKey, Json.str a), (ctKey, Json.str b)]) ctKey = some b := by
  constructor <;> simp [jsGetStr, lookupLast, ivKey, ctKey]

/-- Bundles produced by `encryptWithKey` are recognised by the codec. -/
theorem isEncryptedBundle_encryptWithKey (p : String) (k : VaultKey) (iv : List Nat)
    (hiv : ∀ b ∈ iv, b < 256) :
    isEncryptedBundle (encryptWithKey p k iv) = true := by
  unfold encryptWithKey isEncryptedBundle
  have hct : ∀ b ∈ gcmEncrypt k iv (utf8Encode p), b < 256 :=
    gcmEncrypt_lt_256 k iv _ (utf8Encode_lt_256 p)
  have hamem := btoaCodes_mem iv hiv
  have hbmem := btoaCodes_mem _ hct
  have hpmem : ∀ c ∈ packJson (btoaCodes iv) (btoaCodes (gcmEncrypt k iv (utf8Encode p))),
      c < 128 :=
    packJson_mem _ _ (fun c hc => (hamem c hc).2.1) (fun c hc => (hbmem c hc).2.1)
  have houter := btoaCodes_mem _ (fun c hc => by have := hpmem c hc; omega)
  rw [strToCodes_codesToStr _ (fun c hc => Or.inl (by have := (houter c hc).2.1; omega))]
  rw [atobCodes_btoaCodes _ (fun c hc => by have := hpmem c hc; omega)]
  dsimp only
  rw [jsonParse_packJson _ _ (fun c hc => ⟨(hamem c hc).1, (hamem c hc).2.2.1, (hamem c hc).2.2.2⟩)
    (fun c hc => ⟨(hbmem c hc).1, (hbmem c hc).2.2.1, (hbmem c hc).2.2.2⟩)]
  dsimp only
  rw [(jsGetStr_pack _ _).1, (jsGetStr_pack _ _).2]
  rfl

/-- Decrypting an envelope with the key that produced it restores the
plaintext. -/
theorem decryptWithKey_encryptWithKey (p : String) (k : VaultKey) (iv : List Nat)
    (hiv : ∀ b ∈ iv, b < 256) :
    decryptWithKey (encryptWithKey p k iv) k = some p := by
  unfold encryptWithKey decryptWithKey
  have hct : ∀ b ∈ gcmEncrypt k iv (utf8Encode p), b < 256 :=
    gcmEncrypt_lt_256 k iv _ (utf8Encode_lt_256 p)
  have hamem := btoaCodes_mem iv hiv
  have hbmem := btoaCodes_mem _ hct
  have hpmem : ∀ c ∈ packJson (btoaCodes iv) (btoaCodes (gcmEncrypt k iv (utf8Encode p))),
      c < 128 :=
    packJson_mem _ _ (fun c hc => (hamem c hc).2.1) (fun c hc => (hbmem c hc).2.1)
  have houter := btoaCodes_mem _ (fun c hc => by have := hpmem c hc; omega)
  rw [strToCodes_codesToStr _ (fun c hc => Or.inl (by have := (houter c hc).2.1; omega))]
  rw [atobCodes_btoaCodes _ (fun c hc => by have := hpmem c hc; omega)]
  dsimp only
  rw [jsonParse_packJson _ _ (fun c hc => ⟨(hamem c hc).1, (hamem c hc).2.2.1, (hamem c hc).2.2.2⟩)
    (fun c hc => ⟨(hbmem c hc).1, (hbmem c hc).2.2.1, (hbmem c hc).2.2.2⟩)]
  dsimp only
  rw [(jsGetStr_pack _ _).1, (jsGetStr_pack _ _).2]
  dsimp only
  rw [atobCodes_btoaCodes iv hiv, atobCodes_btoaCodes _ hct]
  dsimp only
  rw [gcmDecrypt_encrypt]
  dsimp only
  rw [utf8Decode_utf8Encode]

/-! ## Record encryption adapter (usePasswords) -/

/-- The startsWith test on the lock marker 🔒 applied by the write paths to
the in-memory password field: true exactly when the first code point is the
marker opening the read-time sentinels. -/
def startsWithLock (s : String) : Bool :=
  match s.data with
  | c :: _ => c = '🔒'
  | [] => false

/-- `safeDecrypt(value, key)`: legacy plaintext is returned as is; an
envelope without a published key yields the locked sentinel; a failed
decryption yields the wrong-key sentinel; otherwise the plaintext. Total:
the catch converts every decryption throw into the sentinel. -/
def safeDecrypt (value : String) (key : Option VaultKey) : String :=
  if isEncryptedBundle value = false then value
  else
    match key with
    | none => "🔒 (locked)"
    | some k =>
      match decryptWithKey value k with
      | some s => s
      | none => "🔒 (wrong key)"

/-- The per-field transformation of the localStorage persist effect in the
current usePasswords revision: encrypt a truthy field that neither starts
with the sentinel marker nor is already an envelope; every other field value
is stored unchanged. The nonce drawn for the encryption is the iv
parameter. -/
def persistFieldChecked : Option VaultKey → List Nat → String → String
  | some k, iv, pw =>
    if pw ≠ "" ∧ startsWithLock pw = false ∧ isEncryptedBundle pw = false then
      encryptWithKey pw k iv
    else pw
  | none, _, pw => pw

/-- The per-field transformation of the persist effect in the earlier
usePasswords revision, which does not test isEncryptedBundle before
encrypting. -/
def persistFieldUnchecked : Option VaultKey → List Nat → String → String
  | some k, iv, pw =>
    if pw ≠ "" ∧ startsWithLock pw = false then encryptWithKey pw k iv
    else pw
  | none, _, pw => pw

/-- The password column value sent by `updatePassword` on the cloud path:
undefined is left out of the update, a truthy non-sentinel string is
encrypted, anything else is sent unchanged. -/
def updatePasswordField (cloudKey : VaultKey) (iv : List Nat) (updPw : Option String) :
    Option String :=
  match updPw with
  | none => none
  | some pw =>
    if pw ≠ "" ∧ startsWithLock pw = false then some (encryptWithKey pw cloudKey iv)
    else some pw

/-- Effect of one remote update on the stored password column: an omitted
column keeps the stored value, a present one replaces it. -/
def applyRemoteUpdate (stored : String) (upd : Option String) : String :=
  match upd with
  | none => stored
  | some v => v

/-! ## Vault lock state machine (SecurityContext.tsx) -/

/-- The SecurityProvider state read by the auto-lock timer. Timestamps are
integer milliseconds; autoLockTimeout is in minutes. -/
structure SecState where
  isLocked : Bool
  autoLockEnabled : Bool
  autoLockTimeout : Int
  lastActivity : Int
  user : Bool
deriving DecidableEq

/-- The `checkLock` closure: lock when the elapsed minutes reach the
timeout. The source computes (now - lastActivity)/1000/60 >= autoLockTimeout
over floats; for integer timestamps and timeout this is the comparison after
scaling by 60000. -/
def checkLock (now : Int) (s : SecState) : SecState :=
  if s.autoLockTimeout * 60000 ≤ now - s.lastActivity then { s with isLocked := true }
  else s

/-- One firing of the 10-second interval. The effect that installs the
interval returns early when auto-lock is off, no user is signed in, or the
vault is already locked, and is re-run whenever any of those inputs change,
so no tick fires in those states. -/
def idleCheckTick (now : Int) (s : SecState) : SecState :=
  if s.autoLockEnabled = false ∨ s.user = false ∨ s.isLocked = true then s
  else checkLock now s

/-- The activity listeners: refresh lastActivity. -/
def updateActivity (now : Int) (s : SecState) : SecState :=
  { s with lastActivity := now }

/-- `lock()` (the clipboard side effect lives in the panic model). -/
def lock (s : SecState) : SecState :=
  { s with isLocked := true }

/-- `unlock()`. -/
def unlock (now : Int) (s : SecState) : SecState :=
  { s with isLocked := false, lastActivity := now }

/-! ## Panic (SecurityContext.tsx) with the session key store (useVaultKey) -/

/-- The application state touched by panic: the lock flag, the clipboard,
the persisted local vault entries (the securevault_passwords key of
localStorage), the two keys of the session key store, the non-secret
session unlock marker, the authenticated session, and whether the page was
reloaded. -/
structure AppState where
  isLocked : Bool
  clipboard : String
  localVault : Option String
  cloudKey : Option VaultKey
  localKey : Option VaultKey
  localVaultMarker : Bool
  sessionActive : Bool
  reloaded : Bool
deriving DecidableEq

/-- `clearKeys()` of useVaultKey: drops both keys and removes the session
unlock marker. -/
def clearKeys (st : AppState) : AppState :=
  { st with cloudKey := none, localKey := none, localVaultMarker := false }

/-- Which collaborators fail during one panic run. -/
structure PanicEnv where
  clipFails : Bool
  removeFails : Bool
  signOutFails : Bool
deriving DecidableEq

/-- `panic()`: set the lock flag, write the empty string to the clipboard,
remove the persisted vault entries, await signOut, reload. The clipboard
write is a fire-and-forget promise, so its rejection does not stop the
sequence; localStorage.removeItem throwing, or the awaited signOut
rejecting, abandons the remaining steps, because no step is wrapped in its
own try/catch. The reload re-initialises the useVaultKey module state,
which is what empties the session key store; panic never calls
clearKeys. -/
def panic (st : AppState) (e : PanicEnv) : AppState :=
  let st1 := { st with isLocked := true }
  let st2 := if e.clipFails then st1 else { st1 with clipboard := "" }
  if e.removeFails then st2
  else
    let st3 := { st2 with localVault := none }
    if e.signOutFails then st3
    else
      let st4 := { st3 with sessionActive := false }
      { st4 with reloaded := true, cloudKey := none, localKey := none }

/-! ## The sharing library derivation (second module of passwordGenerator.ts) -/

/-- The key derived by the sharing library. -/
structure ShareKey where
  token : String
  salt : List Nat
  iterations : Nat
  keyLength : Nat
deriving DecidableEq

/-- `deriveKey(token, salt)` of the sharing library: PBKDF2-SHA-256 with
100000 iterations over a caller-supplied salt; `encryptData` draws a fresh
random 16-byte salt for every message. -/
def shareDeriveKey (token : String) (salt : List Nat) : ShareKey :=
  { token := token, salt := salt, iterations := 100000, keyLength := 256 }

/-! ## The envelope shape stated by the spec -/

/-- Modelled from the spec: the bit-exact persisted envelope shape, a base64
string decoding to a JSON object whose iv and ct are present as strings with
the decoded iv exactly 12 bytes. -/
def envelopeShape12 (value : String) : Bool :=
  match atobCodes (strToCodes value) with
  | none => false
  | some bs =>
    match jsonParse bs with
    | some (Json.obj fs) =>
      match lookupLast fs ivKey, lookupLast fs ctKey with
      | some (Json.str s1), some (Json.str _) =>
        (match atobCodes s1 with
         | some ivb => ivb.length = 12
         | none => false)
      | _, _ => false
    | _ => false

/-- Modelled from the spec: the envelope shape without the iv length
requirement, a base64 string decoding to a JSON object whose iv and ct are
present as strings. -/
def envelopeShape (value : String) : Bool :=
  match atobCodes (strToCodes value) with
  | none => false
  | some bs =>
    match jsonParse bs with
    | some (Json.obj fs) =>
      match lookupLast fs ivKey, lookupLast fs ctKey with
      | some (Json.str _), some (Json.str _) => true
      | _, _ => false
    | _ => false

theorem isEncryptedBundle_eq_envelopeShape (v : String) :
    isEncryptedBundle v = envelopeShape v := by
  unfold isEncryptedBundle envelopeShape jsGetStr
  cases atobCodes (strToCodes v) with
  | none => rfl
  | some bs =>
    dsimp only
    cases jsonParse bs with
    | none => rfl
    | some j =>
      dsimp only
      cases j with
      | obj fs =>
        dsimp only
        cases h1 : lookupLast fs ivKey with
        | none => rfl
        | some v1 =>
          cases h2 : lookupLast fs ctKey with
          | none => cases v1 <;> rfl
          | some v2 => cases v1 <;> cases v2 <;> rfl
      | null => rfl
      | bool b => rfl
      | num l => rfl
      | str s => rfl
      | arr xs => rfl

/-! ## Concrete values used by witnesses and counterexamples -/

/-- A 12-byte nonce as drawn by `crypto.getRandomValues(new Uint8Array(12))`. -/
def ivTest : List Nat := [1, 2, 3, 4, 5, 6, 7, 8, 9, 10, 11, 12]

/-- A second nonce, for a later encryption call. -/
def ivTest2 : List Nat := [12, 11, 10, 9, 8, 7, 6, 5, 4, 3, 2, 1]

/-- The local key of the spec scenario. -/
def keyTest : VaultKey := setLocalKey "correct-horse-battery" "user42"

/-- A local key derived from a different passphrase. -/
def keyTest2 : VaultKey := setLocalKey "wrong-password" "user42"

/-- An envelope holding the scenario plaintext. -/
def envTest : String := encryptWithKey "hunter2" keyTest ivTest

/-- An envelope holding the one-character plaintext x. -/
def envTestX : String := encryptWithKey "x" keyTest ivTest

/-- A bundle whose iv field base64-decodes to a single byte. -/
def shortIvBundle : String :=
  codesToStr (btoaCodes (packJson (strToCodes "AA==") (strToCodes "AA==")))

/-- An application state holding keys, entries and a live session. -/
def panicStateTest : AppState :=
  { isLocked := false, clipboard := "secret", localVault := some "entries",
    cloudKey := some (setCloudKey "user42"), localKey := some keyTest,
    localVaultMarker := true, sessionActive := true, reloaded := false }

/-- An unlocked security state with auto-lock on, timeout five minutes, last
activity at time 0 and a signed-in user. -/
def secStateTest : SecState :=
  { isLocked := false, autoLockEnabled := true, autoLockTimeout := 5,
    lastActivity := 0, user := true }

/-- The same state with no signed-in user. -/
def anonState : SecState :=
  { isLocked := false, autoLockEnabled := true, autoLockTimeout := 5,
    lastActivity := 0, user := false }

/-! ## The claims -/

/-- C1: for every plaintext string p and every validly derived key k,
decrypting the envelope produced by encrypting p under k yields p again. -/
theorem C1_encrypt_decrypt_roundtrip (p token saltStr : String) (iv : List Nat)
    (_h12 : iv.length = 12) (hiv : ∀ b ∈ iv, b < 256) :
    decryptWithKey (encryptWithKey p (deriveAesKey token saltStr) iv)
      (deriveAesKey token saltStr) = some p :=
  decryptWithKey_encryptWithKey p _ iv hiv

theorem C1_encrypt_decrypt_roundtrip_witness :
    decryptWithKey (encryptWithKey "hunter2" (deriveAesKey "correct-horse-battery"
      "local-user42") ivTest) (deriveAesKey "correct-horse-battery" "local-user42") =
      some "hunter2" :=
  C1_encrypt_decrypt_roundtrip "hunter2" "correct-horse-battery" "local-user42" ivTest
    (by decide) (by decide)

/-- C2 counterexample: panic with a rejecting signOut leaves both session
keys in the store and the session live, and panic with a throwing
removeItem never attempts the sign-out, so the claimed post-state does not
hold independently of individual step failures. -/
theorem C2_panic_counterexample :
    (panic panicStateTest ⟨false, false, true⟩).localKey ≠ none
    ∧ (panic panicStateTest ⟨false, false, true⟩).cloudKey ≠ none
    ∧ (panic panicStateTest ⟨false, false, true⟩).sessionActive = true
    ∧ (panic panicStateTest ⟨false, true, false⟩).sessionActive = true
    ∧ (panic panicStateTest ⟨false, true, false⟩).localVault ≠ none := by
  refine ⟨by decide, by decide, rfl, rfl, by decide⟩

/-- C2 (amended): panic sets the lock flag first, so the state is Locked
whatever else fails, and a clipboard failure aborts nothing; but the steps
are sequential without per-step isolation: the vault entries are erased only
if removeItem does not throw, and the session is terminated and the session
key store emptied (solely through the reload) only if both removeItem and
signOut succeed. -/
theorem C2_panic_best_effort (st : AppState) (e : PanicEnv) :
    (panic st e).isLocked = true
    ∧ (e.clipFails = false → (panic st e).clipboard = "")
    ∧ (e.removeFails = false → (panic st e).localVault = none)
    ∧ (e.removeFails = false → e.signOutFails = false →
        (panic st e).sessionActive = false ∧ (panic st e).cloudKey = none
        ∧ (panic st e).localKey = none ∧ (panic st e).reloaded = true) := by
  unfold panic
  rcases e with ⟨cf, rf, sf⟩
  cases cf <;> cases rf <;> cases sf <;> simp

theorem C2_panic_best_effort_witness :
    (panic panicStateTest ⟨false, false, false⟩).isLocked = true
    ∧ (panic panicStateTest ⟨false, false, false⟩).localVault = none
    ∧ (panic panicStateTest ⟨false, false, false⟩).localKey = none :=
  ⟨(C2_panic_best_effort panicStateTest ⟨false, false, false⟩).1,
   (C2_panic_best_effort panicStateTest ⟨false, false, false⟩).2.2.1 rfl,
   ((C2_panic_best_effort panicStateTest ⟨false, false, false⟩).2.2.2 rfl rfl).2.2.1⟩

/-- C3: the read path is total and returns the value unchanged when it is
not an envelope, the locked sentinel when it is an envelope and no key is
published, the wrong-key sentinel when a key is available and decryption
fails, and the decrypted plaintext otherwise. -/
theorem C3_safeDecrypt_cases (v : String) (k : VaultKey) :
    (isEncryptedBundle v = false → safeDecrypt v none = v ∧ safeDecrypt v (some k) = v)
    ∧ (isEncryptedBundle v = true → safeDecrypt v none = "🔒 (locked)")
    ∧ (isEncryptedBundle v = true → decryptWithKey v k = none →
        safeDecrypt v (some k) = "🔒 (wrong key)")
    ∧ (∀ p, isEncryptedBundle v = true → decryptWithKey v k = some p →
        safeDecrypt v (some k) = p) := by
  refine ⟨fun h => ⟨?_, ?_⟩, fun h => ?_, fun h hd => ?_, fun p h hd => ?_⟩
  all_goals simp_all [safeDecrypt]

theorem C3_safeDecrypt_cases_witness :
    safeDecrypt "plain text" none = "plain text"
    ∧ safeDecrypt envTest none = "🔒 (locked)"
    ∧ safeDecrypt envTest (some keyTest2) = "🔒 (wrong key)"
    ∧ safeDecrypt envTest (some keyTest) = "hunter2" :=
  ⟨((C3_safeDecrypt_cases "plain text" keyTest).1 (by rfl)).1,
   (C3_safeDecrypt_cases envTest keyTest).2.1 (by rfl),
   (C3_safeDecrypt_cases envTest keyTest2).2.2.1 (by rfl) (by rfl),
   (C3_safeDecrypt_cases envTest keyTest).2.2.2 "hunter2" (by rfl) (by rfl)⟩

/-- C4: evaluating the write paths at the failing input: an envelope loaded
while locked reads as the locked sentinel, and both the local persist path
and the remote update path then store the sentinel itself in place of the
previously stored ciphertext instead of refusing the write. -/
theorem C4_sentinel_overwrites_ciphertext :
    safeDecrypt envTest none = "🔒 (locked)"
    ∧ persistFieldChecked none ivTest2 "🔒 (locked)" = "🔒 (locked)"
    ∧ persistFieldChecked (some keyTest) ivTest2 "🔒 (locked)" = "🔒 (locked)"
    ∧ applyRemoteUpdate envTest (updatePasswordField keyTest ivTest2
        (some "🔒 (wrong key)")) = "🔒 (wrong key)"
    ∧ envTest ≠ "🔒 (locked)" := by
  refine ⟨by rfl, rfl, by decide, by decide, by decide⟩

/-- C5 counterexample: the persist path of the earlier revision re-encrypts
a field whose value is already an envelope, so saving it changes the stored
value (double encryption). -/
theorem C5_idempotence_counterexample :
    isEncryptedBundle envTestX = true
    ∧ persistFieldUnchecked (some keyTest) ivTest2 envTestX =
        encryptWithKey envTestX keyTest ivTest2
    ∧ encryptWithKey envTestX keyTest ivTest2 ≠ envTestX := by
  refine ⟨by rfl, by decide, by decide⟩

/-- C5 (amended): in the current persist path saving an already-encrypted
field with a key available leaves the envelope unchanged, and saving a
non-empty legacy plaintext field upgrades it to an envelope; the earlier
revision upgrades legacy plaintext too but re-encrypts an envelope-valued
field instead of leaving it unchanged. -/
theorem C5_idempotent_persistence (k : VaultKey) (iv : List Nat) (pw : String) :
    (isEncryptedBundle pw = true → persistFieldChecked (some k) iv pw = pw)
    ∧ (pw ≠ "" → startsWithLock pw = false → isEncryptedBundle pw = false →
        (∀ b ∈ iv, b < 256) → isEncryptedBundle (persistFieldChecked (some k) iv pw) = true)
    ∧ (pw ≠ "" → startsWithLock pw = false →
        persistFieldUnchecked (some k) iv pw = encryptWithKey pw k iv)
    ∧ (pw ≠ "" → startsWithLock pw = false → isEncryptedBundle pw = false →
        (∀ b ∈ iv, b < 256) →
        isEncryptedBundle (persistFieldUnchecked (some k) iv pw) = true) := by
  refine ⟨fun h => ?_, fun h1 h2 h3 hiv => ?_, fun h1 h2 => ?_, fun h1 h2 h3 hiv => ?_⟩
  · simp [persistFieldChecked, h]
  · simp [persistFieldChecked, h1, h2, h3, isEncryptedBundle_encryptWithKey pw k iv hiv]
  · simp [persistFieldUnchecked, h1, h2]
  · simp [persistFieldUnchecked, h1, h2, isEncryptedBundle_encryptWithKey pw k iv hiv]

theorem C5_idempotent_persistence_witness :
    persistFieldChecked (some keyTest) ivTest2 envTestX = envTestX
    ∧ isEncryptedBundle (persistFieldChecked (some keyTest) ivTest "legacy-secret") = true :=
  ⟨(C5_idempotent_persistence keyTest ivTest2 envTestX).1 (by rfl),
   (C5_idempotent_persistence keyTest ivTest "legacy-secret").2.1 (by decide) (by decide)
     (by rfl) (by decide)⟩

/-- C6 counterexample: a bundle whose iv field decodes to one byte, not
twelve, is still classified as an envelope by the code, against the bit-exact
shape required by the claim. -/
theorem C6_isEnvelope_counterexample :
    isEncryptedBundle shortIvBundle = true ∧ envelopeShape12 shortIvBundle = false := by
  refine ⟨by rfl, by rfl⟩

/-- C6 (amended): isEnvelope returns true exactly when the value
base64-decodes to a JSON object whose iv and ct fields are present as
strings — no length check is made on the decoded iv — and false, never
throwing, on any parse failure; in particular plain text is legacy and the
output of the codec is an envelope. -/
theorem C6_isEnvelope_characterisation :
    (∀ v : String, isEncryptedBundle v = envelopeShape v)
    ∧ isEncryptedBundle "plain text" = false
    ∧ (∀ (p token saltStr : String) (iv : List Nat), iv.length = 12 →
        (∀ b ∈ iv, b < 256) →
        isEncryptedBundle (encryptWithKey p (deriveAesKey token saltStr) iv) = true) :=
  ⟨isEncryptedBundle_eq_envelopeShape, by rfl,
   fun p token saltStr iv _ hiv => isEncryptedBundle_encryptWithKey p _ iv hiv⟩

theorem C6_isEnvelope_characterisation_witness :
    isEncryptedBundle (encryptWithKey "x" (deriveAesKey "correct-horse-battery"
      "local-user42") ivTest) = true :=
  C6_isEnvelope_characterisation.2.2 "x" "correct-horse-battery" "local-user42" ivTest
    (by decide) (by decide)

/-- C7: with auto-lock enabled, a user signed in, a five-minute timeout and
the vault unlocked, a tick at or after five minutes past the last activity
locks the vault; a tick before that changes nothing; and after an activity
event at four minutes and fifty-nine seconds every tick earlier than five
minutes past that activity leaves the vault unlocked. -/
theorem C7_autolock_timeout (s : SecState) (now a now2 : Int)
    (hu : s.user = true) (he : s.autoLockEnabled = true) (ht : s.autoLockTimeout = 5)
    (hl : s.isLocked = false) :
    (s.lastActivity + 300000 ≤ now → (idleCheckTick now s).isLocked = true)
    ∧ (now < s.lastActivity + 300000 → idleCheckTick now s = s)
    ∧ (a = s.lastActivity + 299000 → now2 < a + 300000 →
        (idleCheckTick now2 (updateActivity a s)).isLocked = false) := by
  unfold idleCheckTick checkLock updateActivity
  refine ⟨fun h => ?_, fun h => ?_, fun ha h2 => ?_⟩
  · rw [if_neg (by simp [hu, he, hl]), if_pos (by rw [ht]; omega)]
  · rw [if_neg (by simp [hu, he, hl]), if_neg (by rw [ht]; omega)]
  · rw [if_neg (by simp [hu, he, hl]), if_neg (by simp only []; rw [ht]; omega)]
    exact hl

theorem C7_autolock_timeout_witness :
    (idleCheckTick 300000 secStateTest).isLocked = true
    ∧ idleCheckTick 299000 secStateTest = secStateTest
    ∧ (idleCheckTick 500000 (updateActivity 299000 secStateTest)).isLocked = false :=
  ⟨(C7_autolock_timeout secStateTest 300000 299000 500000 rfl rfl rfl rfl).1 (by decide),
   (C7_autolock_timeout secStateTest 299000 299000 500000 rfl rfl rfl rfl).2.1 (by decide),
   (C7_autolock_timeout secStateTest 300000 299000 500000 rfl rfl rfl rfl).2.2 (by decide)
     (by decide)⟩

/-- C8: key derivation is deterministic: re-deriving from the same token and
scope yields the same key, interchangeable for decryption; the spec scenario
holds: encrypt under the local key for scope local-user42, observe the
locked sentinel with no key published, and decrypt back to the plaintext
with the re-derived key. -/
theorem C8_derivation_deterministic (token saltStr : String) (iv : List Nat)
    (_h12 : iv.length = 12) (hiv : ∀ b ∈ iv, b < 256) :
    deriveAesKey token saltStr = deriveAesKey token saltStr
    ∧ (safeDecrypt (encryptWithKey "hunter2" (setLocalKey "correct-horse-battery" "user42")
        iv) none = "🔒 (locked)"
      ∧ safeDecrypt (encryptWithKey "hunter2" (setLocalKey "correct-horse-battery" "user42")
          iv) (some (setLocalKey "correct-horse-battery" "user42")) = "hunter2")
    ∧ (∀ p : String, decryptWithKey (encryptWithKey p (deriveAesKey token saltStr) iv)
        (deriveAesKey token saltStr) = some p) := by
  refine ⟨rfl, ⟨?_, ?_⟩, fun p => decryptWithKey_encryptWithKey p _ iv hiv⟩
  · simp [safeDecrypt, isEncryptedBundle_encryptWithKey _ _ iv hiv]
  · simp [safeDecrypt, isEncryptedBundle_encryptWithKey _ _ iv hiv,
      decryptWithKey_encryptWithKey _ _ iv hiv]

theorem C8_derivation_deterministic_witness :
    safeDecrypt (encryptWithKey "hunter2" (setLocalKey "correct-horse-battery" "user42")
      ivTest) none = "🔒 (locked)"
    ∧ safeDecrypt (encryptWithKey "hunter2" (setLocalKey "correct-horse-battery" "user42")
        ivTest) (some (setLocalKey "correct-horse-battery" "user42")) = "hunter2" :=
  (C8_derivation_deterministic "correct-horse-battery" "local-user42" ivTest
    (by decide) (by decide)).2.1

/-- C9 counterexample: the vault derivation path uses 200000 iterations
while the sharing derivation path uses 100000, so no single iteration count
is applied consistently across derivation paths. -/
theorem C9_iterations_counterexample :
    (deriveAesKey "token" "scope").iterations = 200000
    ∧ (shareDeriveKey "token" [0, 1, 2]).iterations = 100000
    ∧ (deriveAesKey "token" "scope").iterations ≠ (shareDeriveKey "token" [0, 1, 2]).iterations := by
  refine ⟨rfl, rfl, by decide⟩

/-- C9 (amended): every derivation call site uses hash-based iterated
derivation with at least 100000 iterations and a 256-bit authenticated
cipher key, but the paths differ: the vault path uses 200000 iterations with
salt equal to the fixed application prefix concatenated with the scope
label, while the sharing path uses 100000 iterations over its per-message
random salt. -/
theorem C9_derivation_parameters (t s : String) (salt : List Nat) :
    100000 ≤ (deriveAesKey t s).iterations
    ∧ 100000 ≤ (shareDeriveKey t salt).iterations
    ∧ (deriveAesKey t s).keyLength = 256
    ∧ (shareDeriveKey t salt).keyLength = 256
    ∧ (deriveAesKey t s).salt = APP_SALT_PREFIX ++ s
    ∧ (shareDeriveKey t salt).salt = salt
    ∧ (deriveAesKey t s).iterations = 200000
    ∧ (shareDeriveKey t salt).iterations = 100000 :=
  ⟨by norm_num [deriveAesKey, PBKDF2_ITERATIONS], by norm_num [shareDeriveKey],
   rfl, rfl, rfl, rfl, rfl, rfl⟩

/-- C10: the idle check performs no transition when no user is signed in,
whatever the elapsed inactivity: the guard of the timer effect returns
early. -/
theorem C10_no_autolock_without_user (s : SecState) (now : Int) (h : s.user = false) :
    idleCheckTick now s = s := by
  unfold idleCheckTick
  rw [if_pos (Or.inr (Or.inl h))]

theorem C10_no_autolock_without_user_witness :
    idleCheckTick 999999999 anonState = anonState :=
  C10_no_autolock_without_user anonState 999999999 rfl

end AuraPass
